import Mathlib

/-
  Verification development for the MQD_Client data-quality telemetry agent.

  Each definition below is a shallow embedding of a function from the Go
  source tree (queue_manager.go, main.go, configuration.go, report.go,
  message_process_Worker.go, result_processor.go, api_dao.go, the
  configuration manager and the local result manager).  Go machine integers
  are modelled as Int, Go strings as Lean String (character level; the Go
  code indexes bytes, which coincides for ASCII data), Go maps as
  insertion-ordered association lists, and fallible operations as Option or
  Except.  Effects that cannot live in a pure embedding (the HTTP client,
  the cryptographic random source, the JSON schema engine) are passed in as
  explicit parameters, so each embedded function stays executable.
-/

namespace MQD

/-- Models Go strings.Contains via an explicit scan: does the second list
occur as a contiguous run inside the first? -/
def startsWithList : List Char → List Char → Bool
  | _, [] => true
  | [], _ :: _ => false
  | a :: as, b :: bs => a = b && startsWithList as bs

/-- Recursive scan used by strContains, checking every suffix. -/
def containsList (needle : List Char) : List Char → Bool
  | [] => startsWithList [] needle
  | a :: as => startsWithList (a :: as) needle || containsList needle as

/-- Go strings.Contains(s, sub). -/
def strContains (s sub : String) : Bool :=
  containsList sub.toList s.toList

/-- Insertion-ordered association-list update modelling a Go map write
m[k] = f(m[k]): the first binding of k is replaced, a missing key is
appended at the end. -/
def updateAssoc {α : Type} (l : List (String × α)) (k : String) (f : Option α → α) :
    List (String × α) :=
  match l with
  | [] => [(k, f none)]
  | (k2, v) :: rest => if k2 = k then (k, f (some v)) :: rest else (k2, v) :: updateAssoc rest k f

/-- Association-list read modelling a Go map read (first binding wins;
the embedding keeps keys unique exactly as a Go map does). -/
def lookupAssoc {α : Type} (l : List (String × α)) (k : String) : Option α :=
  (l.find? (fun kv => kv.1 = k)).map (fun kv => kv.2)

/- ---------------------------------------------------------------------
   queue_manager.go
   --------------------------------------------------------------------- -/

/-- Message from queue_manager.go: the payload handed from the HTTP handler
to the worker. -/
structure Message where
  message : String
  endpoint : String
  apiVersion : String
  httpMethod : String
  serverID : String
  xFapiInteractionID : String
  consentID : String
  transmitterID : String
  deriving Repr, DecidableEq

/-- Capacity of the buffered channel messageQueue in queue_manager.go. -/
def messageQueueCapacity : Nat := 1000

/-- EnqueueMessage from queue_manager.go.  The body is the plain channel
send messageQueue <- msg with no select/default branch: when the buffer
holds fewer than 1000 messages the send completes and the message is
appended; when the buffer is full the send cannot complete without a
consumer, which this pure embedding renders as none (the calling handler
blocks).  There is no drop path and no queueFull counter in the source. -/
def enqueueMessage (queue : List Message) (msg : Message) : Option (List Message) :=
  if queue.length < messageQueueCapacity then some (queue ++ [msg]) else none

/-- A concrete message used for closed evaluations. -/
def sampleMessage : Message :=
  { message := "\x7b\x7d", endpoint := "/accounts/v2/accounts", apiVersion := "2.0.0",
    httpMethod := "POST", serverID := "s", xFapiInteractionID := "x",
    consentID := "", transmitterID := "" }

/- ---------------------------------------------------------------------
   api_configuration_settings.go and the sampling gate of main.go
   --------------------------------------------------------------------- -/

/-- Constant ExtremelyHighTroughput from api_configuration_settings.go;
note the source spells the value without the first R. -/
def ExtremelyHighTroughput : String := "EXTEMELY_HIGH"

/-- Constant HighTroughput from api_configuration_settings.go. -/
def HighTroughput : String := "HIGH"

/-- Constant MediumTroughput from api_configuration_settings.go. -/
def MediumTroughput : String := "MEDIUM"

/-- Constant LowTroughput from api_configuration_settings.go. -/
def LowTroughput : String := "LOW"

/-- Constant VeryLowTroughput from api_configuration_settings.go. -/
def VeryLowTroughput : String := "VERY_LOW"

/-- APIEndpointSetting from api_configuration_settings.go. -/
structure APIEndpointSetting where
  endpoint : String
  headerValidationRules : String
  bodyValidationRules : String
  jsonHeaderSchema : String
  jsonBodySchema : String
  throughput : String
  deriving Repr, DecidableEq

/-- The per-class validation rates of ValidationSettings from
api_configuration_settings.go (Go int fields). -/
structure ValidationRateSettings where
  extremelyHighTroughputValidationRate : Int
  highTroughputValidationRate : Int
  mediumTroughputValidationRate : Int
  lowTroughputValidationRate : Int
  veryLowTroughputValidationRate : Int
  deriving Repr, DecidableEq

/-- mustValidate from main.go.  The source first calls getRandomNumber,
which draws a fresh integer in [0,100] from crypto/rand (101 exclusive
upper bound) and returns 100 when the random source fails; that drawn
value is the randomValue parameter here.  The Go switch on
endpointSetting.Throughput is a sequence of equality tests, and a value
matching no case falls through to the final return true. -/
def mustValidate (randomValue : Int) (endpointSetting : APIEndpointSetting)
    (rates : ValidationRateSettings) : Bool :=
  if endpointSetting.throughput = ExtremelyHighTroughput then
    randomValue < rates.extremelyHighTroughputValidationRate
  else if endpointSetting.throughput = HighTroughput then
    randomValue < rates.highTroughputValidationRate
  else if endpointSetting.throughput = MediumTroughput then
    randomValue < rates.mediumTroughputValidationRate
  else if endpointSetting.throughput = LowTroughput then
    randomValue < rates.lowTroughputValidationRate
  else if endpointSetting.throughput = VeryLowTroughput then
    randomValue < rates.veryLowTroughputValidationRate
  else
    true

/-- The configured rate the switch of mustValidate compares against for a
given endpoint setting: the rate of the matching throughput class, or none
when the throughput string matches no case (the switch then falls through
to return true). -/
def classRate (endpointSetting : APIEndpointSetting) (rates : ValidationRateSettings) :
    Option Int :=
  if endpointSetting.throughput = ExtremelyHighTroughput then
    some rates.extremelyHighTroughputValidationRate
  else if endpointSetting.throughput = HighTroughput then
    some rates.highTroughputValidationRate
  else if endpointSetting.throughput = MediumTroughput then
    some rates.mediumTroughputValidationRate
  else if endpointSetting.throughput = LowTroughput then
    some rates.lowTroughputValidationRate
  else if endpointSetting.throughput = VeryLowTroughput then
    some rates.veryLowTroughputValidationRate
  else none

/-- An endpoint setting of the HIGH throughput class with empty rule
fields, used for closed evaluations. -/
def highSetting : APIEndpointSetting :=
  { endpoint := "/accounts", headerValidationRules := "", bodyValidationRules := "",
    jsonHeaderSchema := "", jsonBodySchema := "", throughput := HighTroughput }

/-- Rates configured to 100 for every throughput class. -/
def ratesAll100 : ValidationRateSettings :=
  { extremelyHighTroughputValidationRate := 100, highTroughputValidationRate := 100,
    mediumTroughputValidationRate := 100, lowTroughputValidationRate := 100,
    veryLowTroughputValidationRate := 100 }

/-- Rates configured to 0 for every throughput class. -/
def ratesAll0 : ValidationRateSettings :=
  { extremelyHighTroughputValidationRate := 0, highTroughputValidationRate := 0,
    mediumTroughputValidationRate := 0, lowTroughputValidationRate := 0,
    veryLowTroughputValidationRate := 0 }

/- ---------------------------------------------------------------------
   configuration.go: validateSettings
   --------------------------------------------------------------------- -/

/-- The ResultSettings block of the application configuration
(Go int fields; configuration.go lines 105 to 118 validate them). -/
structure ResultSettings where
  enabled : Bool
  filesPerDay : Int
  samplesPerError : Int
  daysToStore : Int
  deriving Repr, DecidableEq

/-- The three ResultSettings range checks of validateSettings in
configuration.go, in source order.  The last branch guards
daysToStore < 1 or daysToStore > 10 but its body assigns
samplesPerError := 7, exactly as the source line
cnf.Settings.ResultSettings.SamplesPerError = 7 does. -/
def validateResultSettings (rs : ResultSettings) : ResultSettings :=
  let rs1 := if rs.filesPerDay < 1 ∨ rs.filesPerDay > 24 then
    { rs with filesPerDay := 8 } else rs
  let rs2 := if rs1.samplesPerError < 1 ∨ rs1.samplesPerError > 10 then
    { rs1 with samplesPerError := 5 } else rs1
  if rs2.daysToStore < 1 ∨ rs2.daysToStore > 10 then
    { rs2 with samplesPerError := 7 } else rs2

/- ---------------------------------------------------------------------
   report.go: SchemaValidator error normalization
   --------------------------------------------------------------------- -/

/-- One gojsonschema ResultError as the SchemaValidator consumes it:
fieldText stands for desc.Field(), descriptionText for desc.Description()
and renderedText for desc.String(). -/
structure ResultError where
  fieldText : String
  descriptionText : String
  renderedText : String
  deriving Repr, DecidableEq

/-- All-digit nonempty run, helper for the float grammar below. -/
def isDigitRun (l : List Char) : Bool :=
  !l.isEmpty && l.all (fun c => c.isDigit)

/-- Optional sign followed by digits, the exponent tail of a float. -/
def isSignedDigits (l : List Char) : Bool :=
  match l with
  | c :: rest => if c = '+' ∨ c = '-' then isDigitRun rest else isDigitRun l
  | [] => false

/-- Optional exponent part of a float: empty, or e or E followed by signed
digits. -/
def isExpTail (l : List Char) : Bool :=
  match l with
  | [] => true
  | c :: rest => (c = 'e' ∨ c = 'E') && isSignedDigits rest

/-- Mantissa with optional fraction, then the optional exponent: the
decimal shapes strconv.ParseFloat accepts. -/
def isMantissaExp (l : List Char) : Bool :=
  let intPart := l.takeWhile Char.isDigit
  let rest := l.dropWhile Char.isDigit
  match rest with
  | '.' :: rest2 =>
    let frac := rest2.takeWhile Char.isDigit
    let rest3 := rest2.dropWhile Char.isDigit
    (!intPart.isEmpty || !frac.isEmpty) && isExpTail rest3
  | _ => !intPart.isEmpty && isExpTail rest

/-- isNumeric from report.go: whether strconv.ParseFloat(s, 64) succeeds.
Modelled as the decimal float grammar (optional sign, digits with optional
fraction and exponent) plus the special words inf, infinity and nan that
ParseFloat also accepts; the hexadecimal float forms are not modelled, as
no dot-separated field-path token takes that shape. -/
def isNumeric (s : String) : Bool :=
  let l := s.toList
  let body := match l with
    | c :: rest => if c = '+' ∨ c = '-' then rest else l
    | [] => l
  let lower := body.map Char.toLower
  isMantissaExp body || lower = "inf".toList || lower = "infinity".toList ||
    lower = "nan".toList

/-- One iteration of the accumulation loop of cleanString in report.go:
a numeric token is skipped, the first kept token starts the result, later
kept tokens are appended after a dot. -/
def cleanStep (result v : String) : String :=
  if isNumeric v then result
  else if result = "" then v else result ++ "." ++ v

/-- The accumulation loop of cleanString in report.go: result starts
empty; each non-numeric token v is appended, with a dot separator once
result is nonempty. -/
def joinCleanTokens (tokens : List String) : String :=
  tokens.foldl cleanStep ""

/-- Dot-separated join of a token list, written by plain structural
recursion; used to state what the accumulation loop of cleanString
computes. -/
def joinDots : List String → String
  | [] => ""
  | [t] => t
  | t :: rest => t ++ "." ++ joinDots rest

/-- A schema error whose field path starts with a data token and holds a
numeric array index, used for closed evaluations. -/
def errDataIdx : ResultError :=
  { fieldText := "data.0.cpf", descriptionText := "cpf is required",
    renderedText := "data.0.cpf: cpf is required" }

/-- A schema error whose field path holds a numeric array index but no
data substring, used for closed evaluations. -/
def errNoData : ResultError :=
  { fieldText := "items.0.name", descriptionText := "name is required",
    renderedText := "items.0.name: name is required" }

/-- Accumulating pass of splitOnDot: the pending token is collected in
reverse; a dot flushes it. -/
def splitOnDotAux : List Char → List Char → List String
  | [], acc => [String.mk acc.reverse]
  | c :: rest, acc =>
    if c = '.' then String.mk acc.reverse :: splitOnDotAux rest []
    else splitOnDotAux rest (c :: acc)

/-- Go strings.Split(value, "."): every dot separates, adjacent dots and
edge dots yield empty pieces. -/
def splitOnDot (value : String) : List String :=
  splitOnDotAux value.toList []

/-- cleanString from report.go: a string without the substring data is
returned unchanged; otherwise the string is split on dots and the tokens
that parse as numbers are dropped by the accumulation loop. -/
def cleanString (value : String) : String :=
  if !strContains value "data" then value
  else joinCleanTokens (splitOnDot value)

/-- cleanErrors from report.go: errors whose rendered text contains the
quoted token "if" are skipped; each kept error appends its cleaned
description under its cleaned field in the result map (modelled as an
insertion-ordered association list). -/
def cleanErrors (errors : List ResultError) : List (String × List String) :=
  errors.foldl
    (fun result desc =>
      if strContains desc.renderedText "\"if\"" then result
      else updateAssoc result (cleanString desc.fieldText)
        (fun old => old.getD [] ++ [cleanString desc.descriptionText]))
    []

/- ---------------------------------------------------------------------
   configuration_settings.go and the local result manager: masking
   --------------------------------------------------------------------- -/

/-- A decoded JSON value, the dynamic tree json.Unmarshal produces for a
DynamicStruct payload: null, booleans, numbers, strings, arrays and
objects (objects as insertion-ordered unique-key field lists). -/
inductive JValue where
  | jnull : JValue
  | jbool (b : Bool) : JValue
  | jnum (n : Int) : JValue
  | jstr (s : String) : JValue
  | jarr (items : List JValue) : JValue
  | jobj (fields : List (String × JValue)) : JValue
  deriving Repr

/-- Go strings.EqualFold restricted to simple case folding: equality after
lowercasing every character. -/
def eqFold (a b : String) : Bool :=
  a.toList.map Char.toLower = b.toList.map Char.toLower

/-- HaveToMask from configuration_settings.go: case-insensitive membership
of the attribute name in the AttributesToMask list. -/
def haveToMask (attributesToMask : List String) (attributeName : String) : Bool :=
  attributesToMask.any (fun value => eqFold value attributeName)

/-- The string branch of scrambleValue: a string of more than two
characters keeps its first and last character with stars in between,
anything shorter becomes all stars.  The Go code indexes bytes; the
embedding works on characters, which coincides on ASCII payloads. -/
def maskString (s : String) : String :=
  let l := s.toList
  if 2 < l.length then
    String.mk (l.take 1 ++ List.replicate (l.length - 2) '*' ++ l.drop (l.length - 1))
  else
    String.mk (List.replicate l.length '*')

/-- scrambleValue from the local result manager: strings are star-masked,
numbers become 0, booleans become false, and every other value (null,
arrays, objects) hits the default case and becomes the fixed mask
string. -/
def scrambleValue : JValue → JValue
  | JValue.jstr s => JValue.jstr (maskString s)
  | JValue.jnum _ => JValue.jnum 0
  | JValue.jbool _ => JValue.jbool false
  | _ => JValue.jstr "**********"

mutual

/-- The field loop of findAndScrambleAttribute: a masked key has its whole
value scrambled; an unmasked key has its value descended into. -/
def scrambleObjFields (attrs : List String) : List (String × JValue) → List (String × JValue)
  | [] => []
  | (k, v) :: rest =>
    (if haveToMask attrs k then (k, scrambleValue v) else (k, scrambleDescend attrs v)) ::
      scrambleObjFields attrs rest

/-- The switch of findAndScrambleAttribute on an unmasked value: recurse
into a nested object, walk an array recursing into its object items only,
and leave every other value untouched. -/
def scrambleDescend (attrs : List String) : JValue → JValue
  | JValue.jobj fields => JValue.jobj (scrambleObjFields attrs fields)
  | JValue.jarr items => JValue.jarr (scrambleArrayItems attrs items)
  | v => v

/-- The array loop of findAndScrambleAttribute: object items are recursed
into, every other item (primitives, nested arrays) is kept as is. -/
def scrambleArrayItems (attrs : List String) : List JValue → List JValue
  | [] => []
  | JValue.jobj fields :: rest =>
    JValue.jobj (scrambleObjFields attrs fields) :: scrambleArrayItems attrs rest
  | v :: rest => v :: scrambleArrayItems attrs rest

end

/-- findAndScrambleAttribute from the local result manager, applied to the
top-level DynamicStruct object. -/
def findAndScrambleAttribute (attrs : List String) (payload : List (String × JValue)) :
    List (String × JValue) :=
  scrambleObjFields attrs payload

/-- What the array loop of findAndScrambleAttribute does to one item:
recurse into an object, keep anything else. -/
def scrambleIfObj (attrs : List String) : JValue → JValue
  | JValue.jobj fields => JValue.jobj (scrambleObjFields attrs fields)
  | v => v

/-- Mask list with the single attribute cpf, for closed evaluations. -/
def maskAttrsSample : List String := ["cpf"]

/-- Inner object sample: a masked cpf string next to a primitive array
under an unmasked key. -/
def innerObjSample : List (String × JValue) :=
  [("cpf", JValue.jstr "12345678901"),
   ("keep", JValue.jarr [JValue.jnum 1, JValue.jnum 2])]

/-- Payload sample: the inner object sits inside an array of objects under
an unmasked key. -/
def payloadSample : List (String × JValue) :=
  [("a", JValue.jarr [JValue.jobj innerObjSample])]

/-- A step into a JSON tree: an object key or an array index. -/
inductive PathStep where
  | key (k : String) : PathStep
  | idx (i : Nat) : PathStep
  deriving Repr, DecidableEq

/-- First binding of a key in a field list (object member access). -/
def lookupField (fields : List (String × JValue)) (k : String) : Option JValue :=
  (fields.find? (fun kv => kv.1 = k)).map (fun kv => kv.2)

/-- Follow a path of object keys and array indices through a JSON tree. -/
def lookupPath : JValue → List PathStep → Option JValue
  | v, [] => some v
  | JValue.jobj fields, PathStep.key k :: rest =>
    match lookupField fields k with
    | some v => lookupPath v rest
    | none => none
  | JValue.jarr items, PathStep.idx i :: rest =>
    match items.get? i with
    | some v => lookupPath v rest
    | none => none
  | _, _ => none

/-- The paths the masking walk of findAndScrambleAttribute traverses:
every key step is an unmasked key, and an index step is either the last
step or immediately followed by a key step (the walk enters arrays of
objects only, never an array nested directly inside an array). -/
def pathOk (attrs : List String) : List PathStep → Bool
  | [] => true
  | PathStep.key k :: rest => !haveToMask attrs k && pathOk attrs rest
  | PathStep.idx _ :: rest =>
    match rest with
    | [] => true
    | PathStep.key _ :: _ => pathOk attrs rest
    | PathStep.idx _ :: _ => false

/-- Whether a path is empty or ends with a key step. -/
def endsKeyOrNil : List PathStep → Bool
  | [] => true
  | [PathStep.key _] => true
  | [PathStep.idx _] => false
  | _ :: rest => endsKeyOrNil rest

/- ---------------------------------------------------------------------
   message_process_Worker.go: processMessage
   --------------------------------------------------------------------- -/

/-- validation.Result: the outcome a SchemaValidator produces. -/
structure ValidationResult where
  valid : Bool
  errors : List (String × List String)
  deriving Repr, DecidableEq

/-- MessageResult from result_processor.go. -/
structure MessageResult where
  transmitterID : String
  endpoint : String
  httpMethod : String
  result : Bool
  serverID : String
  errors : List (String × List String)
  xFapiInteractionID : String
  deriving Repr, DecidableEq

/-- APIValidationSettings from the configuration manager. -/
structure APIValidationSettings where
  endpointSettings : APIEndpointSetting
  apiGroup : String
  api : String
  apiVersion : String
  basePath : String
  deriving Repr, DecidableEq

/-- processMessage from message_process_Worker.go.  The endpoint lookup
result is passed in as lookupResult, and the outcome of validateMessage
(the JSON decode of the body plus the schema engine run, both effectful
in the source) as validationOutcome: Except.error e stands for
validateMessage returning a Go error with text e.  The worker emits no
result (none) when the endpoint does not resolve; otherwise it builds the
MessageResult exactly as the source does, composing the xFapi identifier
with the consent identifier when one is present, and on an error stores
Result = false with the single map entry under the field (error). -/
def processMessage (msg : Message) (lookupResult : Option APIValidationSettings)
    (validationOutcome : Except String ValidationResult) : Option MessageResult :=
  match lookupResult with
  | none => none
  | some _ =>
    let base : MessageResult :=
      { transmitterID := msg.transmitterID, endpoint := msg.endpoint,
        httpMethod := msg.httpMethod, result := false, serverID := msg.serverID,
        errors := [], xFapiInteractionID := msg.xFapiInteractionID }
    let base := if msg.consentID ≠ "" then
        { base with xFapiInteractionID :=
            "[" ++ msg.consentID ++ "] - [" ++ msg.xFapiInteractionID ++ "]" }
      else base
    match validationOutcome with
    | Except.error e => some { base with result := false, errors := [("(error)", [e])] }
    | Except.ok vr => some { base with result := vr.valid, errors := vr.errors }

/- ---------------------------------------------------------------------
   result_processor.go: the aggregator state
   --------------------------------------------------------------------- -/

/-- TransmitterResults from result_processor.go. -/
structure TransmitterResults where
  transmitterID : String
  groupedResults : List (String × List MessageResult)
  deriving Repr, DecidableEq

/-- The shared aggregator state of result_processor.go: the counter
totalResults and the map txGroupedResults. -/
structure ResultProcessorState where
  totalResults : Int
  txGroupedResults : List (String × TransmitterResults)
  deriving Repr, DecidableEq

/-- AppendResult from result_processor.go: increment totalResults, default
the transmitter key to the own organisation identifier, create the
transmitter entry when missing, and append the result to the per-server
list of that transmitter. -/
def appendResult (orgID : String) (s : ResultProcessorState) (result : MessageResult) :
    ResultProcessorState :=
  let tid := if result.transmitterID = "" then orgID else result.transmitterID
  let table := updateAssoc s.txGroupedResults tid
    (fun old =>
      let tr := old.getD { transmitterID := tid, groupedResults := [] }
      { tr with groupedResults :=
          updateAssoc tr.groupedResults result.serverID (fun o => o.getD [] ++ [result]) })
  { totalResults := s.totalResults + 1, txGroupedResults := table }

/-- getAndClearResults from result_processor.go: the Go return value is
evaluated before the deferred block runs, so the caller receives the
pre-flush table while the deferred block replaces txGroupedResults with a
fresh empty map and resets totalResults to 0 (a swap, not an in-place
clear of the returned map). -/
def getAndClearResults (s : ResultProcessorState) :
    List (String × TransmitterResults) × ResultProcessorState :=
  (s.txGroupedResults, { totalResults := 0, txGroupedResults := [] })

/- ---------------------------------------------------------------------
   configuration manager: updateValidationSettings
   --------------------------------------------------------------------- -/

/-- APISetting from api_configuration_settings.go. -/
structure APISetting where
  api : String
  basePath : String
  version : String
  endpointBase : String
  endpointList : List APIEndpointSetting
  deriving Repr, DecidableEq

/-- APIGroupSetting from api_configuration_settings.go. -/
structure APIGroupSetting where
  group : String
  basePath : String
  apiList : List APISetting
  deriving Repr, DecidableEq

/-- GetGroupSetting from api_configuration_settings.go: first group with
the given name. -/
def getGroupSetting (groups : List APIGroupSetting) (groupName : String) :
    Option APIGroupSetting :=
  groups.find? (fun setting => setting.group = groupName)

/-- GetAPISetting from api_configuration_settings.go: first API with the
given name. -/
def getAPISetting (apis : List APISetting) (apiName : String) : Option APISetting :=
  apis.find? (fun setting => setting.api = apiName)

/-- The endpoint fetch getAPIConfigurationFile performs for one API,
abstracted as a function of the group base path, the API base path and
the API version; Except.error models a failing remote fetch, which aborts
the whole update in the source. -/
def FetchFn : Type :=
  String → String → String → Except String (List APIEndpointSetting)

/-- The first-load and group-absent loops of updateValidationSettings:
fetch the endpoint list of every API of the group, in order, aborting on
the first fetch error.  Besides the rewritten API list the embedding
returns the positions (within this group) of the APIs a fetch was issued
for, to let theorems speak about which APIs were fetched. -/
def fetchAllAPIs (fetch : FetchFn) (groupBasePath : String) :
    List APISetting → Except String (List APISetting × List Nat)
  | [] => Except.ok ([], [])
  | api :: rest =>
    match fetch groupBasePath api.basePath api.version with
    | Except.error e => Except.error e
    | Except.ok epList =>
      match fetchAllAPIs fetch groupBasePath rest with
      | Except.error e => Except.error e
      | Except.ok (restOut, restLog) =>
        Except.ok ({ api with endpointList := epList } :: restOut,
          0 :: restLog.map (fun j => j + 1))

/-- The per-API loop of updateValidationSettings when the group exists in
the old catalog: an API absent from the old group or carrying a different
version has its endpoint list fetched; otherwise the old endpoint list is
carried forward unchanged.  The returned positions are those of the
fetched APIs. -/
def updateGroupAPIs (fetch : FetchFn) (groupBasePath : String) (oldSet : APIGroupSetting) :
    List APISetting → Except String (List APISetting × List Nat)
  | [] => Except.ok ([], [])
  | api :: rest =>
    match getAPISetting oldSet.apiList api.api with
    | some oldAPI =>
      if oldAPI.version ≠ api.version then
        match fetch groupBasePath api.basePath api.version with
        | Except.error e => Except.error e
        | Except.ok epList =>
          match updateGroupAPIs fetch groupBasePath oldSet rest with
          | Except.error e => Except.error e
          | Except.ok (restOut, restLog) =>
            Except.ok ({ api with endpointList := epList } :: restOut,
              0 :: restLog.map (fun j => j + 1))
      else
        match updateGroupAPIs fetch groupBasePath oldSet rest with
        | Except.error e => Except.error e
        | Except.ok (restOut, restLog) =>
          Except.ok ({ api with endpointList := oldAPI.endpointList } :: restOut,
            restLog.map (fun j => j + 1))
    | none =>
      match fetch groupBasePath api.basePath api.version with
      | Except.error e => Except.error e
      | Except.ok epList =>
        match updateGroupAPIs fetch groupBasePath oldSet rest with
        | Except.error e => Except.error e
        | Except.ok (restOut, restLog) =>
          Except.ok ({ api with endpointList := epList } :: restOut,
            0 :: restLog.map (fun j => j + 1))

/-- The group loop of updateValidationSettings against a previous catalog:
a group absent from the old catalog has every API fetched, a present group
is diffed API by API.  Fetched APIs are reported as (group position, API
position) pairs. -/
def updateGroups (fetch : FetchFn) (oldGroups : List APIGroupSetting) :
    List APIGroupSetting → Except String (List APIGroupSetting × List (Nat × Nat))
  | [] => Except.ok ([], [])
  | g :: rest =>
    match (match getGroupSetting oldGroups g.group with
      | none => fetchAllAPIs fetch g.basePath g.apiList
      | some oldSet => updateGroupAPIs fetch g.basePath oldSet g.apiList) with
    | Except.error e => Except.error e
    | Except.ok (apis, log) =>
      match updateGroups fetch oldGroups rest with
      | Except.error e => Except.error e
      | Except.ok (restOut, restLog) =>
        Except.ok ({ g with apiList := apis } :: restOut,
          log.map (fun j => ((0 : Nat), j)) ++ restLog.map (fun p => (p.1 + 1, p.2)))

/-- The first-load branch of updateValidationSettings (no previous
catalog): every API of every group is fetched. -/
def updateGroupsFirstLoad (fetch : FetchFn) :
    List APIGroupSetting → Except String (List APIGroupSetting × List (Nat × Nat))
  | [] => Except.ok ([], [])
  | g :: rest =>
    match fetchAllAPIs fetch g.basePath g.apiList with
    | Except.error e => Except.error e
    | Except.ok (apis, log) =>
      match updateGroupsFirstLoad fetch rest with
      | Except.error e => Except.error e
      | Except.ok (restOut, restLog) =>
        Except.ok ({ g with apiList := apis } :: restOut,
          log.map (fun j => ((0 : Nat), j)) ++ restLog.map (fun p => (p.1 + 1, p.2)))

/-- updateValidationSettings from the configuration manager: first load
when no previous catalog exists, otherwise the group diff against the old
validation settings. -/
def updateValidationSettings (fetch : FetchFn) (old : Option (List APIGroupSetting))
    (newGroups : List APIGroupSetting) :
    Except String (List APIGroupSetting × List (Nat × Nat)) :=
  match old with
  | none => updateGroupsFirstLoad fetch newGroups
  | some oldGroups => updateGroups fetch oldGroups newGroups

/-- Sample old-catalog API at version 1.0.0 with one endpoint, for closed
evaluations. -/
def oldAPISample : APISetting :=
  { api := "pix", basePath := "ab", version := "1.0.0", endpointBase := "eb",
    endpointList := [highSetting] }

/-- Sample old-catalog group holding oldAPISample. -/
def oldGroupSample : APIGroupSetting :=
  { group := "payments", basePath := "bp", apiList := [oldAPISample] }

/-- Sample new-catalog API: same name and version as oldAPISample but with
an endpoint list still to fill. -/
def newAPISample : APISetting :=
  { api := "pix", basePath := "ab", version := "1.0.0", endpointBase := "eb",
    endpointList := [] }

/-- Sample new-catalog group holding newAPISample. -/
def newGroupSample : APIGroupSetting :=
  { group := "payments", basePath := "bp", apiList := [newAPISample] }

/-- Sample new-catalog API carrying a bumped version 2.0.0, so the diff
must refetch it. -/
def newAPISampleV2 : APISetting :=
  { api := "pix", basePath := "ab", version := "2.0.0", endpointBase := "eb",
    endpointList := [] }

/-- Sample new-catalog group holding newAPISampleV2. -/
def newGroupSampleV2 : APIGroupSetting :=
  { group := "payments", basePath := "bp", apiList := [newAPISampleV2] }

/-- A fetch stub answering every endpoint request with an empty list, for
closed evaluations. -/
def fetchEmpty : FetchFn := fun _ _ _ => Except.ok []

/- ---------------------------------------------------------------------
   api_dao.go: executeGet
   --------------------------------------------------------------------- -/

/-- The outcome of one HTTP GET attempt: a transport failure (client.Get
returning an error) or a response with a status code and a body. -/
inductive HTTPAttempt where
  | transportError : HTTPAttempt
  | response (statusCode : Nat) (body : String) : HTTPAttempt
  deriving Repr

/-- executeGet from api_dao.go, with the sequence of HTTP outcomes passed
in as responses (responses n is what the n-th attempt, counted from
attempt, observes).  The result carries the number of attempts made and
the number of one-second sleeps taken, so the retry discipline is visible:
a transport error or a status other than 200 retries after a sleep while
retryTimes is positive; status 403 returns an error at once with no retry;
a 200 response whose body contains NoSuchKey returns an error at once with
no retry. -/
def executeGetFrom (url : String) (responses : Nat → HTTPAttempt) (attempt : Nat)
    (retryTimes : Nat) : (Except String String) × Nat × Nat :=
  match responses attempt with
    | HTTPAttempt.transportError =>
      match retryTimes with
      | r + 1 =>
        let (res, n, sl) := executeGetFrom url responses (attempt + 1) r
        (res, n + 1, sl + 1)
      | 0 => (Except.error "transport error", 1, 0)
    | HTTPAttempt.response status body =>
      if status = 403 then (Except.error "forbidden status code", 1, 0)
      else if status ≠ 200 then
        match retryTimes with
        | r + 1 =>
          let (res, n, sl) := executeGetFrom url responses (attempt + 1) r
          (res, n + 1, sl + 1)
        | 0 => (Except.error ("invalid status code: " ++ toString status), 1, 0)
      else if strContains body "NoSuchKey" then
        (Except.error ("configuration file not found: " ++ url), 1, 0)
      else (Except.ok body, 1, 0)
termination_by retryTimes

/-- executeGet as its configuration-fetch callers invoke it: starting at
the first attempt.  Both call sites in the report server pass
retryTimes = 3. -/
def executeGet (url : String) (responses : Nat → HTTPAttempt) (retryTimes : Nat) :
    (Except String String) × Nat × Nat :=
  executeGetFrom url responses 0 retryTimes

/-- The attempt outcomes executeGet retries on: a transport failure, or a
response whose status is neither 403 (immediate hard failure) nor 200
(success path). -/
def isRetriableFailure : HTTPAttempt → Prop
  | HTTPAttempt.transportError => True
  | HTTPAttempt.response s _ => s ≠ 403 ∧ s ≠ 200

/- =====================================================================
   Theorems
   ===================================================================== -/

/-- The switch of mustValidate returns the comparison of the draw against
the class rate whenever the throughput string matches a case. -/
theorem mustValidate_eq_decide (r : Int) (es : APIEndpointSetting)
    (rates : ValidationRateSettings) (rate : Int)
    (hc : classRate es rates = some rate) :
    mustValidate r es rates = decide (r < rate) := by
  unfold classRate at hc
  unfold mustValidate
  split_ifs at hc ⊢ <;> simp_all

/-- Claim C1: evaluation of the code at the failing input.  With the
1000-capacity buffer already full, EnqueueMessage has no non-blocking
completion: the plain channel send of queue_manager.go blocks the calling
HTTP handler, drops nothing and records no queueFull counter, contrary to
the claimed non-blocking drop. -/
theorem c1_enqueue_blocks_when_full :
    enqueueMessage (List.replicate 1000 sampleMessage) sampleMessage = none := by
  unfold enqueueMessage
  rw [List.length_replicate]
  rfl

/-- Claim C2 counterexample: the generator of main.go draws from the
inclusive range [0,100] (bound 101, exclusive), and at the possible draw
r = 100 an endpoint of the HIGH class with every rate configured to 100
fails the gate, so a configured rate of 100 does not admit every valid
request. -/
theorem c2_rate100_rejects_draw_100 :
    mustValidate 100 highSetting ratesAll100 = false := by decide

/-- Claim C2 (amended): for every endpoint whose throughput class is
recognized by the switch, the gate admits exactly when the fresh draw
r from [0,100] is strictly below the configured class rate; with a class
rate of 100 the request passes the gate exactly when the draw is not 100,
so rate 100 admits 100 of the 101 possible draws rather than all of
them. -/
theorem c2_sampling_gate (r : Int) (es : APIEndpointSetting)
    (rates : ValidationRateSettings) (rate : Int)
    (h0 : 0 ≤ r) (h1 : r ≤ 100) (hc : classRate es rates = some rate) :
    (mustValidate r es rates = true ↔ r < rate) ∧
    (rate = 100 → (mustValidate r es rates = true ↔ r ≠ 100)) := by
  rw [mustValidate_eq_decide r es rates rate hc]
  constructor
  · exact decide_eq_true_iff
  · intro h
    subst h
    rw [decide_eq_true_iff]
    omega

/-- Closed witness for the amended claim C2 at the draw r = 42 with every
rate configured to 100. -/
theorem c2_sampling_gate_witness :
    (mustValidate 42 highSetting ratesAll100 = true ↔ (42 : Int) < 100) ∧
    ((100 : Int) = 100 → (mustValidate 42 highSetting ratesAll100 = true ↔ (42 : Int) ≠ 100)) :=
  c2_sampling_gate 42 highSetting ratesAll100 100 (by decide) (by decide) (by decide)

/-- Claim C3: evaluation of the code at the failing input.  With
DaysToStore = 0 (out of the range 1..10) the validation branch of
configuration.go assigns the default 7 to SamplesPerError and leaves
DaysToStore at 0, instead of assigning 7 to DaysToStore as the claim
states. -/
theorem c3_daysToStore_branch_fixes_wrong_field :
    validateResultSettings
        { enabled := true, filesPerDay := 8, samplesPerError := 5, daysToStore := 0 } =
      { enabled := true, filesPerDay := 8, samplesPerError := 7, daysToStore := 0 } := by
  decide

/-- Claim C6: for every message whose endpoint resolves, an error from the
body decode or the schema engine still yields a MessageResult with
Result = false whose error map is exactly the single entry under the
field (error) holding the error text; the worker emits a result instead
of crashing. -/
theorem c6_engine_error_single_entry (msg : Message) (vs : APIValidationSettings)
    (e : String) :
    ∃ mr : MessageResult,
      processMessage msg (some vs) (Except.error e) = some mr ∧
      mr.result = false ∧ mr.errors = [("(error)", [e])] :=
  ⟨_, rfl, rfl, rfl⟩

/-- Claim C7: immediately after getAndClearResults returns, the aggregator
state has totalResults = 0 and an empty grouped-results table, and the
returned value is the pre-flush table: the flush swaps the table out
rather than clearing the returned one in place. -/
theorem c7_flush_swaps_and_clears (s : ResultProcessorState) :
    (getAndClearResults s).1 = s.txGroupedResults ∧
    (getAndClearResults s).2.totalResults = 0 ∧
    (getAndClearResults s).2.txGroupedResults = [] :=
  ⟨rfl, rfl, rfl⟩

/-- Claim C10: a throughput string matching none of the five source
constants — in particular the spelling EXTREMELY_HIGH, which differs from
the source constant EXTEMELY_HIGH — falls through every switch case of
mustValidate, so the request is admitted regardless of the configured
rates and of the draw. -/
theorem c10_unknown_throughput_always_validated (r : Int)
    (rates : ValidationRateSettings) (es : APIEndpointSetting)
    (h1 : es.throughput ≠ ExtremelyHighTroughput) (h2 : es.throughput ≠ HighTroughput)
    (h3 : es.throughput ≠ MediumTroughput) (h4 : es.throughput ≠ LowTroughput)
    (h5 : es.throughput ≠ VeryLowTroughput) :
    ("EXTREMELY_HIGH" : String) ≠ ExtremelyHighTroughput ∧
      mustValidate r es rates = true := by
  refine ⟨by decide, ?_⟩
  simp [mustValidate, h1, h2, h3, h4, h5]

/-- Closed witness for claim C10: an endpoint whose throughput is the spec
spelling EXTREMELY_HIGH is admitted at the draw 0 even with every rate
configured to 0. -/
theorem c10_unknown_throughput_always_validated_witness :
    ("EXTREMELY_HIGH" : String) ≠ ExtremelyHighTroughput ∧
      mustValidate 0
        { endpoint := "", headerValidationRules := "", bodyValidationRules := "",
          jsonHeaderSchema := "", jsonBodySchema := "",
          throughput := "EXTREMELY_HIGH" } ratesAll0 = true :=
  c10_unknown_throughput_always_validated 0 ratesAll0
    { endpoint := "", headerValidationRules := "", bodyValidationRules := "",
      jsonHeaderSchema := "", jsonBodySchema := "",
      throughput := "EXTREMELY_HIGH" }
    (by decide) (by decide) (by decide) (by decide) (by decide)

/-- Prepending a dot-joined pair to a join equals joining with the pair
split, by associativity of string append. -/
theorem joinDots_cons_append (a t : String) (l : List String) :
    joinDots ((a ++ "." ++ t) :: l) = a ++ "." ++ joinDots (t :: l) := by
  cases l with
  | nil => simp [joinDots]
  | cons x xs => simp [joinDots, String.append_assoc]

/-- The accumulation loop of cleanString, started from a nonempty
accumulator, computes the dot-join of the accumulator followed by the
non-numeric tokens. -/
theorem foldl_cleanStep_acc (tokens : List String) :
    ∀ acc : String, acc ≠ "" →
      tokens.foldl cleanStep acc =
        joinDots (acc :: tokens.filter (fun t => !isNumeric t)) := by
  induction tokens with
  | nil =>
    intro acc hacc
    simp [joinDots]
  | cons t rest ih =>
    intro acc hacc
    by_cases hn : isNumeric t
    · simpa [cleanStep, hn] using ih acc hacc
    · have hne2 : acc ++ "." ++ t ≠ "" := by
        intro h
        have hlen := congrArg String.length h
        rw [String.length_append, String.length_append] at hlen
        have hd : (".").length = 1 := rfl
        have he : ("" : String).length = 0 := rfl
        omega
      have step : cleanStep acc t = acc ++ "." ++ t := by
        simp [cleanStep, hn, hacc]
      calc (t :: rest).foldl cleanStep acc
      _ = rest.foldl cleanStep (acc ++ "." ++ t) := by rw [List.foldl_cons, step]
      _ = joinDots ((acc ++ "." ++ t) :: rest.filter (fun x => !isNumeric x)) :=
          ih _ hne2
      _ = acc ++ "." ++ joinDots (t :: rest.filter (fun x => !isNumeric x)) :=
          joinDots_cons_append _ _ _
      _ = joinDots (acc :: (t :: rest).filter (fun x => !isNumeric x)) := by
          simp [List.filter_cons, hn, joinDots]

/-- The accumulation loop of cleanString computes the dot-join of the
non-numeric tokens, provided no token is the empty string. -/
theorem joinCleanTokens_eq_joinDots (tokens : List String) (hne : "" ∉ tokens) :
    joinCleanTokens tokens = joinDots (tokens.filter (fun t => !isNumeric t)) := by
  induction tokens with
  | nil => rfl
  | cons t rest ih =>
    have ht : t ≠ "" := fun h => hne (by rw [h]; exact List.mem_cons_self _ _)
    have hrest : "" ∉ rest := fun h => hne (List.mem_cons_of_mem _ h)
    by_cases hn : isNumeric t
    · simpa [joinCleanTokens, cleanStep, hn, List.filter_cons] using ih hrest
    · have step : cleanStep "" t = t := by simp [cleanStep, hn]
      calc joinCleanTokens (t :: rest)
      _ = rest.foldl cleanStep t := by
          rw [joinCleanTokens, List.foldl_cons, step]
      _ = joinDots (t :: rest.filter (fun x => !isNumeric x)) :=
          foldl_cleanStep_acc rest t ht
      _ = joinDots ((t :: rest).filter (fun x => !isNumeric x)) := by
          simp [List.filter_cons, hn]

/-- Claim C4 counterexample: cleanErrors keeps the data token that the
claim says is dropped, and leaves a path without the data substring
completely unchanged, numeric indices included.  The field data.0.cpf is
normalized to data.cpf (the claim predicts cpf) and items.0.name stays
items.0.name (the claim predicts items.name with the index dropped). -/
theorem c4_clean_errors_counterexample :
    cleanErrors [errDataIdx, errNoData] =
        [("data.cpf", ["cpf is required"]), ("items.0.name", ["name is required"])] ∧
      lookupAssoc (cleanErrors [errDataIdx, errNoData]) "cpf" = none ∧
      lookupAssoc (cleanErrors [errDataIdx, errNoData]) "items.name" = none := by
  decide

/-- Claim C4 (amended): cleanErrors suppresses every error whose rendered
text contains the quoted token "if"; each kept error appends its cleaned
description under its cleaned field path; and the cleaning drops numeric
dot-separated tokens only from strings that contain the substring data
(keeping the data token itself), while a string without that substring is
returned unchanged, numeric tokens included. -/
theorem c4_clean_errors_amended :
    (∀ (errs : List ResultError) (e : ResultError),
        strContains e.renderedText "\"if\"" = true →
        cleanErrors (errs ++ [e]) = cleanErrors errs) ∧
    (∀ (errs : List ResultError) (e : ResultError),
        strContains e.renderedText "\"if\"" = false →
        cleanErrors (errs ++ [e]) =
          updateAssoc (cleanErrors errs) (cleanString e.fieldText)
            (fun old => old.getD [] ++ [cleanString e.descriptionText])) ∧
    (∀ value : String, strContains value "data" = false → cleanString value = value) ∧
    (∀ value : String, strContains value "data" = true → "" ∉ splitOnDot value →
        cleanString value =
          joinDots ((splitOnDot value).filter (fun t => !isNumeric t))) := by
  refine ⟨?_, ?_, ?_, ?_⟩
  · intro errs e h
    simp [cleanErrors, List.foldl_append, h]
  · intro errs e h
    simp [cleanErrors, List.foldl_append, h]
  · intro v h
    simp [cleanString, h]
  · intro v h hne
    simp [cleanString, h, joinCleanTokens_eq_joinDots _ hne]

/-- Closed witness for the amended claim C4: one suppressed error, one
kept error, one unchanged data-free path and one cleaned data path. -/
theorem c4_clean_errors_amended_witness :
    cleanErrors ([errNoData] ++
          [{ fieldText := "f", descriptionText := "d",
             renderedText := "schema \"if\" clause failed" }]) =
        cleanErrors [errNoData] ∧
    cleanErrors ([] ++ [errDataIdx]) =
        updateAssoc (cleanErrors []) (cleanString errDataIdx.fieldText)
          (fun old => old.getD [] ++ [cleanString errDataIdx.descriptionText]) ∧
    cleanString "items.0.name" = "items.0.name" ∧
    cleanString "data.0.cpf" =
        joinDots ((splitOnDot "data.0.cpf").filter (fun t => !isNumeric t)) :=
  ⟨c4_clean_errors_amended.1 [errNoData] _ (by decide),
   c4_clean_errors_amended.2.1 [] errDataIdx (by decide),
   c4_clean_errors_amended.2.2.1 "items.0.name" (by decide),
   c4_clean_errors_amended.2.2.2 "data.0.cpf" (by decide) (by decide)⟩

/-- On a run of retriable outcomes, executeGet makes one attempt plus one
retry per remaining budget unit, sleeping one second before each retry,
and then returns an error. -/
theorem executeGetFrom_all_retriable (url : String) (responses : Nat → HTTPAttempt) :
    ∀ (r attempt : Nat),
      (∀ k, k ≤ r → isRetriableFailure (responses (attempt + k))) →
      ∃ e, executeGetFrom url responses attempt r = (Except.error e, r + 1, r) := by
  intro r
  induction r with
  | zero =>
    intro attempt h
    have h0 := h 0 (Nat.le_refl 0)
    rw [Nat.add_zero] at h0
    cases hr : responses attempt with
    | transportError =>
      exact ⟨"transport error", by simp [executeGetFrom, hr]⟩
    | response s b =>
      rw [hr] at h0
      obtain ⟨h403, h200⟩ := h0
      exact ⟨"invalid status code: " ++ toString s,
        by simp [executeGetFrom, hr, h403, h200]⟩
  | succ r ih =>
    intro attempt h
    have h0 := h 0 (Nat.zero_le _)
    rw [Nat.add_zero] at h0
    have hrest : ∀ k, k ≤ r → isRetriableFailure (responses (attempt + 1 + k)) := by
      intro k hk
      have hx := h (k + 1) (by omega)
      rwa [show attempt + (k + 1) = attempt + 1 + k by omega] at hx
    obtain ⟨e, he⟩ := ih (attempt + 1) hrest
    cases hr : responses attempt with
    | transportError =>
      exact ⟨e, by simp [executeGetFrom, hr, he]⟩
    | response s b =>
      rw [hr] at h0
      obtain ⟨h403, h200⟩ := h0
      exact ⟨e, by simp [executeGetFrom, hr, he, h403, h200]⟩

/-- Claim C9 counterexample: a 403 response is non-2xx, yet executeGet
with a retry budget of 3 (the value both configuration-fetch call sites
pass) returns an error after a single attempt with no sleep and no retry,
against the claimed up-to-3 retries for every non-2xx status. -/
theorem c9_forbidden_without_retry :
    executeGet "u" (fun _ => HTTPAttempt.response 403 "err") 3 =
      (Except.error "forbidden status code", 1, 0) := by
  simp [executeGet, executeGetFrom]

/-- Claim C9 (amended): executeGet with retry budget r (3 from the
configuration-fetch call sites) retries transport failures and statuses
other than 200, sleeping one second between attempts, and errors out after
r + 1 attempts and r sleeps when every attempt fails that way; a 403
status returns an error immediately with no retry, and a 200 response
whose body contains NoSuchKey is a hard failure with no retry. -/
theorem c9_execute_get_retry_discipline :
    (∀ (url : String) (responses : Nat → HTTPAttempt) (r : Nat) (b : String),
        responses 0 = HTTPAttempt.response 403 b →
        executeGet url responses r = (Except.error "forbidden status code", 1, 0)) ∧
    (∀ (url : String) (responses : Nat → HTTPAttempt) (r : Nat),
        (∀ k, k ≤ r → isRetriableFailure (responses k)) →
        ∃ e, executeGet url responses r = (Except.error e, r + 1, r)) ∧
    (∀ (url : String) (responses : Nat → HTTPAttempt) (r : Nat) (b : String),
        responses 0 = HTTPAttempt.response 200 b →
        strContains b "NoSuchKey" = true →
        executeGet url responses r =
          (Except.error ("configuration file not found: " ++ url), 1, 0)) := by
  refine ⟨?_, ?_, ?_⟩
  · intro url responses r b h
    cases r <;> simp [executeGet, executeGetFrom, h]
  · intro url responses r h
    exact executeGetFrom_all_retriable url responses r 0 (by simpa using h)
  · intro url responses r b h hb
    cases r <;> simp [executeGet, executeGetFrom, h, hb]

/-- Closed witness for the amended claim C9 at retry budget 3: a 403
stream fails on the first attempt, a 500 stream fails after 4 attempts
and 3 sleeps, and a 200 body containing NoSuchKey fails on the first
attempt. -/
theorem c9_execute_get_retry_discipline_witness :
    executeGet "u" (fun _ => HTTPAttempt.response 403 "denied") 3 =
        (Except.error "forbidden status code", 1, 0) ∧
    (∃ e, executeGet "u" (fun _ => HTTPAttempt.response 500 "oops") 3 =
        (Except.error e, 4, 3)) ∧
    executeGet "u" (fun _ => HTTPAttempt.response 200 "a NoSuchKey reply") 3 =
        (Except.error ("configuration file not found: " ++ "u"), 1, 0) :=
  ⟨c9_execute_get_retry_discipline.1 "u" _ 3 "denied" rfl,
   c9_execute_get_retry_discipline.2.1 "u" _ 3
     (fun _ _ => ⟨by decide, by decide⟩),
   c9_execute_get_retry_discipline.2.2 "u" _ 3 "a NoSuchKey reply" rfl (by decide)⟩

/-- In the API diff loop of updateValidationSettings, an API present in
the old group with the same version is carried forward unchanged at its
position, and its position does not appear in the fetch log. -/
theorem updateGroupAPIs_carry (fetch : FetchFn) (bp : String) (oldSet : APIGroupSetting) :
    ∀ (apis out : List APISetting) (log : List Nat) (j : Nat) (api oldAPI : APISetting),
      updateGroupAPIs fetch bp oldSet apis = Except.ok (out, log) →
      apis.get? j = some api →
      getAPISetting oldSet.apiList api.api = some oldAPI →
      oldAPI.version = api.version →
      out.get? j = some { api with endpointList := oldAPI.endpointList } ∧ j ∉ log := by
  intro apis
  induction apis with
  | nil =>
    intro out log j api oldAPI hok hj hl hv
    simp at hj
  | cons a rest ih =>
    intro out log j api oldAPI hok hj hl hv
    simp only [updateGroupAPIs] at hok
    cases hla : getAPISetting oldSet.apiList a.api with
    | none =>
      rw [hla] at hok
      cases hfa : fetch bp a.basePath a.version with
      | error e => rw [hfa] at hok; simp at hok
      | ok ep =>
        rw [hfa] at hok
        cases hrec : updateGroupAPIs fetch bp oldSet rest with
        | error e => rw [hrec] at hok; simp at hok
        | ok pr =>
          obtain ⟨restOut, restLog⟩ := pr
          rw [hrec] at hok
          simp only [Except.ok.injEq, Prod.mk.injEq] at hok
          obtain ⟨hout, hlog⟩ := hok
          subst hout
          subst hlog
          cases j with
          | zero =>
            simp only [List.get?_cons_zero, Option.some.injEq] at hj
            subst hj
            rw [hla] at hl
            cases hl
          | succ j2 =>
            simp only [List.get?_cons_succ] at hj
            obtain ⟨hg, hm⟩ := ih restOut restLog j2 api oldAPI hrec hj hl hv
            refine ⟨by simpa using hg, ?_⟩
            intro hmem
            rcases List.mem_cons.mp hmem with h0 | hmap
            · simp at h0
            · obtain ⟨x, hx, hxe⟩ := List.mem_map.mp hmap
              have hxj : x = j2 := by omega
              exact hm (hxj ▸ hx)
    | some oldAPI0 =>
      simp only [hla] at hok
      by_cases hveq : oldAPI0.version = a.version
      · rw [if_neg (fun hcon => hcon hveq)] at hok
        cases hrec : updateGroupAPIs fetch bp oldSet rest with
        | error e => rw [hrec] at hok; simp at hok
        | ok pr =>
          obtain ⟨restOut, restLog⟩ := pr
          rw [hrec] at hok
          simp only [Except.ok.injEq, Prod.mk.injEq] at hok
          obtain ⟨hout, hlog⟩ := hok
          subst hout
          subst hlog
          cases j with
          | zero =>
            simp only [List.get?_cons_zero, Option.some.injEq] at hj
            subst hj
            rw [hla] at hl
            have hoa : oldAPI0 = oldAPI := by
              injection hl
            subst hoa
            refine ⟨by simp, ?_⟩
            intro hmem
            obtain ⟨x, hx, hxe⟩ := List.mem_map.mp hmem
            omega
          | succ j2 =>
            simp only [List.get?_cons_succ] at hj
            obtain ⟨hg, hm⟩ := ih restOut restLog j2 api oldAPI hrec hj hl hv
            refine ⟨by simpa using hg, ?_⟩
            intro hmem
            obtain ⟨x, hx, hxe⟩ := List.mem_map.mp hmem
            have hxj : x = j2 := by omega
            exact hm (hxj ▸ hx)
      · rw [if_pos hveq] at hok
        cases hfa : fetch bp a.basePath a.version with
        | error e => rw [hfa] at hok; simp at hok
        | ok ep =>
          rw [hfa] at hok
          cases hrec : updateGroupAPIs fetch bp oldSet rest with
          | error e => rw [hrec] at hok; simp at hok
          | ok pr =>
            obtain ⟨restOut, restLog⟩ := pr
            rw [hrec] at hok
            simp only [Except.ok.injEq, Prod.mk.injEq] at hok
            obtain ⟨hout, hlog⟩ := hok
            subst hout
            subst hlog
            cases j with
            | zero =>
              simp only [List.get?_cons_zero, Option.some.injEq] at hj
              subst hj
              rw [hla] at hl
              have hoa : oldAPI0 = oldAPI := by injection hl
              subst hoa
              exact absurd hv hveq
            | succ j2 =>
              simp only [List.get?_cons_succ] at hj
              obtain ⟨hg, hm⟩ := ih restOut restLog j2 api oldAPI hrec hj hl hv
              refine ⟨by simpa using hg, ?_⟩
              intro hmem
              rcases List.mem_cons.mp hmem with h0 | hmap
              · simp at h0
              · obtain ⟨x, hx, hxe⟩ := List.mem_map.mp hmap
                have hxj : x = j2 := by omega
                exact hm (hxj ▸ hx)

/-- Carry-forward half of the catalog diff: a (group, api) position
present in both catalogs with an identical version has the old endpoint
list assigned to the new entry and its position is absent from the fetch
log. -/
theorem updateGroups_carry_half (fetch : FetchFn)
    (oldGroups : List APIGroupSetting) :
    ∀ (newGroups out : List APIGroupSetting) (log : List (Nat × Nat)) (i j : Nat)
      (g oldSet : APIGroupSetting) (api oldAPI : APISetting),
      updateValidationSettings fetch (some oldGroups) newGroups = Except.ok (out, log) →
      newGroups.get? i = some g →
      getGroupSetting oldGroups g.group = some oldSet →
      g.apiList.get? j = some api →
      getAPISetting oldSet.apiList api.api = some oldAPI →
      oldAPI.version = api.version →
      ∃ gOut, out.get? i = some gOut ∧
        gOut.apiList.get? j = some { api with endpointList := oldAPI.endpointList } ∧
        (i, j) ∉ log := by
  intro newGroups
  induction newGroups with
  | nil =>
    intro out log i j g oldSet api oldAPI hok hg
    simp at hg
  | cons g0 rest ih =>
    intro out log i j g oldSet api oldAPI hok hg hos hapi hoa hver
    simp only [updateValidationSettings, updateGroups] at hok
    cases i with
    | zero =>
      simp only [List.get?_cons_zero, Option.some.injEq] at hg
      subst hg
      simp only [hos] at hok
      cases hinner : updateGroupAPIs fetch g0.basePath oldSet g0.apiList with
      | error e => simp only [hinner] at hok; exact Except.noConfusion hok
      | ok pr =>
        obtain ⟨apis, log0⟩ := pr
        simp only [hinner] at hok
        cases hrec : updateGroups fetch oldGroups rest with
        | error e => simp only [hrec] at hok; exact Except.noConfusion hok
        | ok pr2 =>
          obtain ⟨restOut, restLog⟩ := pr2
          simp only [hrec] at hok
          simp only [Except.ok.injEq, Prod.mk.injEq] at hok
          obtain ⟨hout, hlog⟩ := hok
          subst hout
          subst hlog
          obtain ⟨hget, hnm⟩ :=
            updateGroupAPIs_carry fetch g0.basePath oldSet g0.apiList apis log0 j
              api oldAPI hinner hapi hoa hver
          refine ⟨{ g0 with apiList := apis }, by simp, by simpa using hget, ?_⟩
          intro hmem
          rcases List.mem_append.mp hmem with hml | hmr
          · obtain ⟨x, hx, hxe⟩ := List.mem_map.mp hml
            have hxj : x = j := by
              have := congrArg Prod.snd hxe
              simpa using this
            exact hnm (hxj ▸ hx)
          · obtain ⟨p, hp, hpe⟩ := List.mem_map.mp hmr
            have := congrArg Prod.fst hpe
            simp at this
    | succ i2 =>
      simp only [List.get?_cons_succ] at hg
      cases hinner : (match getGroupSetting oldGroups g0.group with
        | none => fetchAllAPIs fetch g0.basePath g0.apiList
        | some oldSet0 => updateGroupAPIs fetch g0.basePath oldSet0 g0.apiList) with
      | error e => rw [hinner] at hok; simp at hok
      | ok pr =>
        obtain ⟨apis, log0⟩ := pr
        rw [hinner] at hok
        cases hrec : updateGroups fetch oldGroups rest with
        | error e => rw [hrec] at hok; simp at hok
        | ok pr2 =>
          obtain ⟨restOut, restLog⟩ := pr2
          rw [hrec] at hok
          simp only [Except.ok.injEq, Prod.mk.injEq] at hok
          obtain ⟨hout, hlog⟩ := hok
          subst hout
          subst hlog
          obtain ⟨gOut, hgOut, hget, hnm⟩ :=
            ih restOut restLog i2 j g oldSet api oldAPI (by
              simpa [updateValidationSettings] using hrec) hg hos hapi hoa hver
          refine ⟨gOut, by simpa using hgOut, hget, ?_⟩
          intro hmem
          rcases List.mem_append.mp hmem with hml | hmr
          · obtain ⟨x, hx, hxe⟩ := List.mem_map.mp hml
            have := congrArg Prod.fst hxe
            simp at this
          · obtain ⟨p, hp, hpe⟩ := List.mem_map.mp hmr
            have h1 := congrArg Prod.fst hpe
            have h2 := congrArg Prod.snd hpe
            simp at h1 h2
            have hpp : p = (i2, j) := by
              cases p
              simp at h1 h2
              simp [h1, h2]
            exact hnm (hpp ▸ hp)

/-- In the first-load and group-absent loop, every API position has its
endpoint list fetched: the fetch result fills the entry and the position
appears in the fetch log. -/
theorem fetchAllAPIs_fetches (fetch : FetchFn) (bp : String) :
    ∀ (apis out : List APISetting) (log : List Nat) (j : Nat) (api : APISetting),
      fetchAllAPIs fetch bp apis = Except.ok (out, log) →
      apis.get? j = some api →
      ∃ ep, fetch bp api.basePath api.version = Except.ok ep ∧
        out.get? j = some { api with endpointList := ep } ∧ j ∈ log := by
  intro apis
  induction apis with
  | nil =>
    intro out log j api hok hj
    simp at hj
  | cons a rest ih =>
    intro out log j api hok hj
    simp only [fetchAllAPIs] at hok
    cases hfa : fetch bp a.basePath a.version with
    | error e => rw [hfa] at hok; simp at hok
    | ok ep =>
      rw [hfa] at hok
      cases hrec : fetchAllAPIs fetch bp rest with
      | error e => rw [hrec] at hok; simp at hok
      | ok pr =>
        obtain ⟨restOut, restLog⟩ := pr
        rw [hrec] at hok
        simp only [Except.ok.injEq, Prod.mk.injEq] at hok
        obtain ⟨hout, hlog⟩ := hok
        subst hout
        subst hlog
        cases j with
        | zero =>
          simp only [List.get?_cons_zero, Option.some.injEq] at hj
          subst hj
          exact ⟨ep, hfa, by simp, by simp⟩
        | succ j2 =>
          simp only [List.get?_cons_succ] at hj
          obtain ⟨ep2, hf2, hg2, hm2⟩ := ih restOut restLog j2 api hrec hj
          refine ⟨ep2, hf2, by simpa using hg2, ?_⟩
          simp only [List.mem_cons, List.mem_map]
          exact Or.inr ⟨j2, hm2, rfl⟩

/-- In the API diff loop, an API absent from the old group or carrying a
different version has its endpoint list fetched: the fetch result fills
the entry and the position appears in the fetch log. -/
theorem updateGroupAPIs_fetches (fetch : FetchFn) (bp : String)
    (oldSet : APIGroupSetting) :
    ∀ (apis out : List APISetting) (log : List Nat) (j : Nat) (api : APISetting),
      updateGroupAPIs fetch bp oldSet apis = Except.ok (out, log) →
      apis.get? j = some api →
      (getAPISetting oldSet.apiList api.api = none ∨
        ∃ oldAPI, getAPISetting oldSet.apiList api.api = some oldAPI ∧
          oldAPI.version ≠ api.version) →
      ∃ ep, fetch bp api.basePath api.version = Except.ok ep ∧
        out.get? j = some { api with endpointList := ep } ∧ j ∈ log := by
  intro apis
  induction apis with
  | nil =>
    intro out log j api hok hj hmiss
    simp at hj
  | cons a rest ih =>
    intro out log j api hok hj hmiss
    simp only [updateGroupAPIs] at hok
    cases hla : getAPISetting oldSet.apiList a.api with
    | none =>
      rw [hla] at hok
      cases hfa : fetch bp a.basePath a.version with
      | error e => rw [hfa] at hok; simp at hok
      | ok ep =>
        rw [hfa] at hok
        cases hrec : updateGroupAPIs fetch bp oldSet rest with
        | error e => rw [hrec] at hok; simp at hok
        | ok pr =>
          obtain ⟨restOut, restLog⟩ := pr
          rw [hrec] at hok
          simp only [Except.ok.injEq, Prod.mk.injEq] at hok
          obtain ⟨hout, hlog⟩ := hok
          subst hout
          subst hlog
          cases j with
          | zero =>
            simp only [List.get?_cons_zero, Option.some.injEq] at hj
            subst hj
            exact ⟨ep, hfa, by simp, by simp⟩
          | succ j2 =>
            simp only [List.get?_cons_succ] at hj
            obtain ⟨ep2, hf2, hg2, hm2⟩ := ih restOut restLog j2 api hrec hj hmiss
            refine ⟨ep2, hf2, by simpa using hg2, ?_⟩
            simp only [List.mem_cons, List.mem_map]
            exact Or.inr ⟨j2, hm2, rfl⟩
    | some oldAPI0 =>
      simp only [hla] at hok
      by_cases hveq : oldAPI0.version = a.version
      · rw [if_neg (fun hcon => hcon hveq)] at hok
        cases hrec : updateGroupAPIs fetch bp oldSet rest with
        | error e => rw [hrec] at hok; simp at hok
        | ok pr =>
          obtain ⟨restOut, restLog⟩ := pr
          rw [hrec] at hok
          simp only [Except.ok.injEq, Prod.mk.injEq] at hok
          obtain ⟨hout, hlog⟩ := hok
          subst hout
          subst hlog
          cases j with
          | zero =>
            simp only [List.get?_cons_zero, Option.some.injEq] at hj
            subst hj
            rcases hmiss with hnone | ⟨oldAPI, hsome, hne⟩
            · rw [hla] at hnone
              cases hnone
            · rw [hla] at hsome
              have hoa : oldAPI0 = oldAPI := by injection hsome
              subst hoa
              exact absurd hveq hne
          | succ j2 =>
            simp only [List.get?_cons_succ] at hj
            obtain ⟨ep2, hf2, hg2, hm2⟩ := ih restOut restLog j2 api hrec hj hmiss
            refine ⟨ep2, hf2, by simpa using hg2, ?_⟩
            simp only [List.mem_map]
            exact ⟨j2, hm2, rfl⟩
      · rw [if_pos hveq] at hok
        cases hfa : fetch bp a.basePath a.version with
        | error e => rw [hfa] at hok; simp at hok
        | ok ep =>
          rw [hfa] at hok
          cases hrec : updateGroupAPIs fetch bp oldSet rest with
          | error e => rw [hrec] at hok; simp at hok
          | ok pr =>
            obtain ⟨restOut, restLog⟩ := pr
            rw [hrec] at hok
            simp only [Except.ok.injEq, Prod.mk.injEq] at hok
            obtain ⟨hout, hlog⟩ := hok
            subst hout
            subst hlog
            cases j with
            | zero =>
              simp only [List.get?_cons_zero, Option.some.injEq] at hj
              subst hj
              exact ⟨ep, hfa, by simp, by simp⟩
            | succ j2 =>
              simp only [List.get?_cons_succ] at hj
              obtain ⟨ep2, hf2, hg2, hm2⟩ := ih restOut restLog j2 api hrec hj hmiss
              refine ⟨ep2, hf2, by simpa using hg2, ?_⟩
              simp only [List.mem_cons, List.mem_map]
              exact Or.inr ⟨j2, hm2, rfl⟩

/-- Fetch half of the catalog diff: a (group, api) position whose group is
absent from the old catalog, whose API is absent from its old group, or
whose version differs, has its endpoint JSON fetched — the fetch result
fills the new entry and the position appears in the fetch log. -/
theorem updateGroups_fetch_half (fetch : FetchFn)
    (oldGroups : List APIGroupSetting) :
    ∀ (newGroups out : List APIGroupSetting) (log : List (Nat × Nat)) (i j : Nat)
      (g : APIGroupSetting) (api : APISetting),
      updateValidationSettings fetch (some oldGroups) newGroups = Except.ok (out, log) →
      newGroups.get? i = some g →
      g.apiList.get? j = some api →
      (getGroupSetting oldGroups g.group = none ∨
        ∃ oldSet, getGroupSetting oldGroups g.group = some oldSet ∧
          (getAPISetting oldSet.apiList api.api = none ∨
            ∃ oldAPI, getAPISetting oldSet.apiList api.api = some oldAPI ∧
              oldAPI.version ≠ api.version)) →
      ∃ gOut ep, out.get? i = some gOut ∧
        fetch g.basePath api.basePath api.version = Except.ok ep ∧
        gOut.apiList.get? j = some { api with endpointList := ep } ∧
        (i, j) ∈ log := by
  intro newGroups
  induction newGroups with
  | nil =>
    intro out log i j g api hok hg
    simp at hg
  | cons g0 rest ih =>
    intro out log i j g api hok hg hapi hmiss
    simp only [updateValidationSettings, updateGroups] at hok
    cases i with
    | zero =>
      simp only [List.get?_cons_zero, Option.some.injEq] at hg
      subst hg
      rcases hmiss with hnone | ⟨oldSet, hsome, hapimiss⟩
      · simp only [hnone] at hok
        cases hinner : fetchAllAPIs fetch g0.basePath g0.apiList with
        | error e => simp only [hinner] at hok; exact Except.noConfusion hok
        | ok pr =>
          obtain ⟨apis, log0⟩ := pr
          simp only [hinner] at hok
          cases hrec : updateGroups fetch oldGroups rest with
          | error e => simp only [hrec] at hok; exact Except.noConfusion hok
          | ok pr2 =>
            obtain ⟨restOut, restLog⟩ := pr2
            simp only [hrec] at hok
            simp only [Except.ok.injEq, Prod.mk.injEq] at hok
            obtain ⟨hout, hlog⟩ := hok
            subst hout
            subst hlog
            obtain ⟨ep, hf, hget, hmem⟩ :=
              fetchAllAPIs_fetches fetch g0.basePath g0.apiList apis log0 j api
                hinner hapi
            refine ⟨{ g0 with apiList := apis }, ep, by simp, hf,
              by simpa using hget, ?_⟩
            apply List.mem_append_left
            simp only [List.mem_map]
            exact ⟨j, hmem, rfl⟩
      · simp only [hsome] at hok
        cases hinner : updateGroupAPIs fetch g0.basePath oldSet g0.apiList with
        | error e => simp only [hinner] at hok; exact Except.noConfusion hok
        | ok pr =>
          obtain ⟨apis, log0⟩ := pr
          simp only [hinner] at hok
          cases hrec : updateGroups fetch oldGroups rest with
          | error e => simp only [hrec] at hok; exact Except.noConfusion hok
          | ok pr2 =>
            obtain ⟨restOut, restLog⟩ := pr2
            simp only [hrec] at hok
            simp only [Except.ok.injEq, Prod.mk.injEq] at hok
            obtain ⟨hout, hlog⟩ := hok
            subst hout
            subst hlog
            obtain ⟨ep, hf, hget, hmem⟩ :=
              updateGroupAPIs_fetches fetch g0.basePath oldSet g0.apiList apis
                log0 j api hinner hapi hapimiss
            refine ⟨{ g0 with apiList := apis }, ep, by simp, hf,
              by simpa using hget, ?_⟩
            apply List.mem_append_left
            simp only [List.mem_map]
            exact ⟨j, hmem, rfl⟩
    | succ i2 =>
      simp only [List.get?_cons_succ] at hg
      cases hinner : (match getGroupSetting oldGroups g0.group with
        | none => fetchAllAPIs fetch g0.basePath g0.apiList
        | some oldSet0 => updateGroupAPIs fetch g0.basePath oldSet0 g0.apiList) with
      | error e => rw [hinner] at hok; simp at hok
      | ok pr =>
        obtain ⟨apis, log0⟩ := pr
        rw [hinner] at hok
        cases hrec : updateGroups fetch oldGroups rest with
        | error e => rw [hrec] at hok; simp at hok
        | ok pr2 =>
          obtain ⟨restOut, restLog⟩ := pr2
          rw [hrec] at hok
          simp only [Except.ok.injEq, Prod.mk.injEq] at hok
          obtain ⟨hout, hlog⟩ := hok
          subst hout
          subst hlog
          obtain ⟨gOut, ep, hgo, hf, hget, hmem⟩ :=
            ih restOut restLog i2 j g api
              (by simpa [updateValidationSettings] using hrec) hg hapi hmiss
          refine ⟨gOut, ep, by simpa using hgo, hf, hget, ?_⟩
          apply List.mem_append_right
          simp only [List.mem_map]
          exact ⟨(i2, j), hmem, rfl⟩

/-- Claim C8: during a configuration update with a non-nil previous
catalog, every (group, api) position present in both catalogs with an
identical version has the old endpoint list assigned to the new catalog
entry (the Go slice assignment shares the list by reference) and no
endpoint fetch is issued for that position; and every position whose
group or API is absent from the old catalog, or whose version differs,
has its endpoint JSON fetched, the fetch result filling the new entry and
the position appearing in the fetch log. -/
theorem c8_carry_forward_no_refetch (fetch : FetchFn)
    (oldGroups : List APIGroupSetting) :
    (∀ (newGroups out : List APIGroupSetting) (log : List (Nat × Nat)) (i j : Nat)
        (g oldSet : APIGroupSetting) (api oldAPI : APISetting),
        updateValidationSettings fetch (some oldGroups) newGroups = Except.ok (out, log) →
        newGroups.get? i = some g →
        getGroupSetting oldGroups g.group = some oldSet →
        g.apiList.get? j = some api →
        getAPISetting oldSet.apiList api.api = some oldAPI →
        oldAPI.version = api.version →
        ∃ gOut, out.get? i = some gOut ∧
          gOut.apiList.get? j = some { api with endpointList := oldAPI.endpointList } ∧
          (i, j) ∉ log) ∧
    (∀ (newGroups out : List APIGroupSetting) (log : List (Nat × Nat)) (i j : Nat)
        (g : APIGroupSetting) (api : APISetting),
        updateValidationSettings fetch (some oldGroups) newGroups = Except.ok (out, log) →
        newGroups.get? i = some g →
        g.apiList.get? j = some api →
        (getGroupSetting oldGroups g.group = none ∨
          ∃ oldSet, getGroupSetting oldGroups g.group = some oldSet ∧
            (getAPISetting oldSet.apiList api.api = none ∨
              ∃ oldAPI, getAPISetting oldSet.apiList api.api = some oldAPI ∧
                oldAPI.version ≠ api.version)) →
        ∃ gOut ep, out.get? i = some gOut ∧
          fetch g.basePath api.basePath api.version = Except.ok ep ∧
          gOut.apiList.get? j = some { api with endpointList := ep } ∧
          (i, j) ∈ log) :=
  ⟨updateGroups_carry_half fetch oldGroups, updateGroups_fetch_half fetch oldGroups⟩

/-- Closed witness for claim C8: with a one-group, one-API old catalog, an
unchanged version carries the old endpoint list forward with an empty
fetch log, while a bumped version 2.0.0 is refetched, the fetch result
filling the entry and the position logged. -/
theorem c8_carry_forward_no_refetch_witness :
    (∃ gOut,
      ([{ newGroupSample with
          apiList := [{ newAPISample with endpointList := [highSetting] }] }] :
            List APIGroupSetting).get? 0 = some gOut ∧
      gOut.apiList.get? 0 =
        some { newAPISample with endpointList := oldAPISample.endpointList } ∧
      ((0 : Nat), (0 : Nat)) ∉ ([] : List (Nat × Nat))) ∧
    (∃ gOut ep,
      ([newGroupSampleV2] : List APIGroupSetting).get? 0 = some gOut ∧
      fetchEmpty newGroupSampleV2.basePath newAPISampleV2.basePath
          newAPISampleV2.version = Except.ok ep ∧
      gOut.apiList.get? 0 = some { newAPISampleV2 with endpointList := ep } ∧
      ((0 : Nat), (0 : Nat)) ∈ ([((0 : Nat), (0 : Nat))] : List (Nat × Nat))) :=
  ⟨(c8_carry_forward_no_refetch fetchEmpty [oldGroupSample]).1
    [newGroupSample]
    [{ newGroupSample with
       apiList := [{ newAPISample with endpointList := [highSetting] }] }]
    [] 0 0 newGroupSample oldGroupSample newAPISample oldAPISample
    (by rfl) (by rfl) (by rfl) (by rfl) (by rfl) (by rfl),
   (c8_carry_forward_no_refetch fetchEmpty [oldGroupSample]).2
    [newGroupSampleV2] [newGroupSampleV2] [((0 : Nat), (0 : Nat))] 0 0
    newGroupSampleV2 newAPISampleV2
    (by rfl) (by rfl) (by rfl)
    (Or.inr ⟨oldGroupSample, by rfl,
      Or.inr ⟨oldAPISample, by rfl, by decide⟩⟩)⟩

/-- The array loop of the masking walk is a pointwise map of
scrambleIfObj. -/
theorem scrambleArrayItems_eq_map (attrs : List String) :
    ∀ items : List JValue,
      scrambleArrayItems attrs items = items.map (scrambleIfObj attrs) := by
  intro items
  induction items with
  | nil => rfl
  | cons v rest ih =>
    cases v <;> simp [scrambleArrayItems, scrambleIfObj, ih]

/-- A key step at the front does not change whether a path ends in a key
step. -/
theorem endsKeyOrNil_cons_key (k : String) (rest : List PathStep) :
    endsKeyOrNil (PathStep.key k :: rest) = endsKeyOrNil rest := by
  cases rest <;> rfl

/-- An index step at the front of a nonempty path does not change whether
the path ends in a key step. -/
theorem endsKeyOrNil_cons_idx (i : Nat) (s : PathStep) (rest : List PathStep) :
    endsKeyOrNil (PathStep.idx i :: s :: rest) = endsKeyOrNil (s :: rest) := by
  rfl

/-- Looking up an unmasked key in a scrambled field list yields the
descended original value. -/
theorem lookupField_scramble_unmasked (attrs : List String) (k : String) :
    ∀ (fields : List (String × JValue)) (v : JValue),
      haveToMask attrs k = false →
      lookupField fields k = some v →
      lookupField (scrambleObjFields attrs fields) k =
        some (scrambleDescend attrs v) := by
  intro fields
  induction fields with
  | nil =>
    intro v hm hf
    simp [lookupField] at hf
  | cons kv rest ih =>
    obtain ⟨k2, v2⟩ := kv
    intro v hm hf
    by_cases hk : k2 = k
    · subst hk
      rw [lookupField, List.find?_cons_of_pos _ (by simp)] at hf
      simp at hf
      subst hf
      have hhead : scrambleObjFields attrs ((k2, v2) :: rest) =
          (k2, scrambleDescend attrs v2) :: scrambleObjFields attrs rest := by
        simp [scrambleObjFields, hm]
      rw [hhead, lookupField, List.find?_cons_of_pos _ (by simp)]
      simp
    · rw [lookupField, List.find?_cons_of_neg _ (by simpa using hk)] at hf
      have hrec := ih v hm hf
      have hhead : scrambleObjFields attrs ((k2, v2) :: rest) =
          (k2, if haveToMask attrs k2 then scrambleValue v2
               else scrambleDescend attrs v2) :: scrambleObjFields attrs rest := by
        by_cases hm2 : haveToMask attrs k2 <;> simp [scrambleObjFields, hm2]
      rw [hhead, lookupField, List.find?_cons_of_neg _ (by simpa using hk)]
      exact hrec

/-- Looking up a masked key in a scrambled field list yields the
scrambled original value. -/
theorem lookupField_scramble_masked (attrs : List String) (k : String) :
    ∀ (fields : List (String × JValue)) (v : JValue),
      haveToMask attrs k = true →
      lookupField fields k = some v →
      lookupField (scrambleObjFields attrs fields) k = some (scrambleValue v) := by
  intro fields
  induction fields with
  | nil =>
    intro v hm hf
    simp [lookupField] at hf
  | cons kv rest ih =>
    obtain ⟨k2, v2⟩ := kv
    intro v hm hf
    by_cases hk : k2 = k
    · subst hk
      rw [lookupField, List.find?_cons_of_pos _ (by simp)] at hf
      simp at hf
      subst hf
      have hhead : scrambleObjFields attrs ((k2, v2) :: rest) =
          (k2, scrambleValue v2) :: scrambleObjFields attrs rest := by
        simp [scrambleObjFields, hm]
      rw [hhead, lookupField, List.find?_cons_of_pos _ (by simp)]
      simp
    · rw [lookupField, List.find?_cons_of_neg _ (by simpa using hk)] at hf
      have hrec := ih v hm hf
      have hhead : scrambleObjFields attrs ((k2, v2) :: rest) =
          (k2, if haveToMask attrs k2 then scrambleValue v2
               else scrambleDescend attrs v2) :: scrambleObjFields attrs rest := by
        by_cases hm2 : haveToMask attrs k2 <;> simp [scrambleObjFields, hm2]
      rw [hhead, lookupField, List.find?_cons_of_neg _ (by simpa using hk)]
      exact hrec

/-- Main masking-walk lemma: along any path the walk traverses (unmasked
keys, arrays entered only toward objects), the scrambled tree holds the
descended image of whatever the original tree holds there; a value landed
on through a final index step is transformed by the array loop instead. -/
theorem lookupPath_scramble (attrs : List String) :
    ∀ (p : List PathStep) (v w : JValue),
      pathOk attrs p = true →
      lookupPath v p = some w →
      lookupPath (scrambleDescend attrs v) p =
        some (if endsKeyOrNil p then scrambleDescend attrs w
              else scrambleIfObj attrs w) := by
  intro p
  induction p with
  | nil =>
    intro v w hp hl
    simp only [lookupPath, Option.some.injEq] at hl
    subst hl
    simp [lookupPath, endsKeyOrNil]
  | cons s rest ih =>
    intro v w hp hl
    cases s with
    | key k =>
      cases v with
      | jobj fields =>
        simp only [lookupPath] at hl
        cases hf : lookupField fields k with
        | none => rw [hf] at hl; simp at hl
        | some v1 =>
          simp only [hf] at hl
          simp only [pathOk, Bool.and_eq_true, Bool.not_eq_true'] at hp
          obtain ⟨hmk, hrest⟩ := hp
          have hstep := lookupField_scramble_unmasked attrs k fields v1 hmk hf
          have hrec := ih v1 w hrest hl
          simp only [scrambleDescend, lookupPath]
          simp only [hstep]
          rw [hrec, endsKeyOrNil_cons_key]
      | jnull => simp [lookupPath] at hl
      | jbool b => simp [lookupPath] at hl
      | jnum n => simp [lookupPath] at hl
      | jstr s2 => simp [lookupPath] at hl
      | jarr items => simp [lookupPath] at hl
    | idx i =>
      cases v with
      | jarr items =>
        simp only [lookupPath] at hl
        cases hg : items.get? i with
        | none => rw [hg] at hl; simp at hl
        | some v1 =>
          simp only [hg] at hl
          have hmap : (scrambleArrayItems attrs items).get? i =
              some (scrambleIfObj attrs v1) := by
            rw [scrambleArrayItems_eq_map, List.get?_map, hg]
            rfl
          cases rest with
          | nil =>
            simp only [lookupPath, Option.some.injEq] at hl
            subst hl
            simp only [scrambleDescend, lookupPath]
            simp only [hmap]
            simp [lookupPath, endsKeyOrNil]
          | cons s2 rest2 =>
            cases s2 with
            | key k2 =>
              have hrest : pathOk attrs (PathStep.key k2 :: rest2) = true := by
                simpa [pathOk] using hp
              cases v1 with
              | jobj f =>
                have hv1 : scrambleIfObj attrs (JValue.jobj f) =
                    scrambleDescend attrs (JValue.jobj f) := by
                  simp [scrambleIfObj, scrambleDescend]
                have hrec := ih (JValue.jobj f) w hrest hl
                simp only [scrambleDescend, lookupPath]
                simp only [hmap, hv1]
                rw [hrec, endsKeyOrNil_cons_idx]
              | jnull => simp [lookupPath] at hl
              | jbool b => simp [lookupPath] at hl
              | jnum n => simp [lookupPath] at hl
              | jstr s3 => simp [lookupPath] at hl
              | jarr items2 => simp [lookupPath] at hl
            | idx i2 =>
              simp [pathOk] at hp
      | jnull => simp [lookupPath] at hl
      | jbool b => simp [lookupPath] at hl
      | jnum n => simp [lookupPath] at hl
      | jstr s2 => simp [lookupPath] at hl
      | jobj fields => simp [lookupPath] at hl

/-- Claim C5: for every key the catalog masks (case-insensitive), the
payload findAndScrambleAttribute returns holds the scrambled value in
place of the original at every depth the walk reaches through nested
objects and arrays of objects; primitive elements of arrays under
unmasked keys are untouched; and the scramble rules are: strings longer
than two characters keep first and last with stars in between, shorter
strings become all stars, numbers become 0, booleans become false, and
arrays and objects at a masked key become the fixed ten-star string. -/
theorem c5_mask_no_original_value (attrs : List String)
    (root : List (String × JValue)) (p : List PathStep)
    (hp : pathOk attrs p = true) :
    (∀ (o : List (String × JValue)) (k : String) (v : JValue),
        lookupPath (JValue.jobj root) p = some (JValue.jobj o) →
        haveToMask attrs k = true →
        lookupField o k = some v →
        ∃ o2, lookupPath (JValue.jobj (findAndScrambleAttribute attrs root)) p =
            some (JValue.jobj o2) ∧
          lookupField o2 k = some (scrambleValue v)) ∧
    (∀ items : List JValue,
        lookupPath (JValue.jobj root) p = some (JValue.jarr items) →
        ∃ items2,
          lookupPath (JValue.jobj (findAndScrambleAttribute attrs root)) p =
            some (JValue.jarr items2) ∧
          items2.length = items.length ∧
          ∀ (i : Nat) (it : JValue), items.get? i = some it →
            (∀ f, it ≠ JValue.jobj f) → items2.get? i = some it) ∧
    (∀ s : String, 2 < s.toList.length →
        scrambleValue (JValue.jstr s) =
          JValue.jstr (String.mk (s.toList.take 1 ++
            List.replicate (s.toList.length - 2) '*' ++
            s.toList.drop (s.toList.length - 1)))) ∧
    (∀ s : String, s.toList.length ≤ 2 →
        scrambleValue (JValue.jstr s) =
          JValue.jstr (String.mk (List.replicate s.toList.length '*'))) ∧
    (∀ n : Int, scrambleValue (JValue.jnum n) = JValue.jnum 0) ∧
    (∀ b : Bool, scrambleValue (JValue.jbool b) = JValue.jbool false) ∧
    (∀ items : List JValue,
        scrambleValue (JValue.jarr items) = JValue.jstr "**********") ∧
    (∀ fields : List (String × JValue),
        scrambleValue (JValue.jobj fields) = JValue.jstr "**********") := by
  refine ⟨?_, ?_, ?_, ?_, ?_, ?_, ?_, ?_⟩
  · intro o k v hreach hm hf
    have h := lookupPath_scramble attrs p (JValue.jobj root) (JValue.jobj o) hp hreach
    have hcollapse :
        (if endsKeyOrNil p then scrambleDescend attrs (JValue.jobj o)
         else scrambleIfObj attrs (JValue.jobj o)) =
          JValue.jobj (scrambleObjFields attrs o) := by
      cases hE : endsKeyOrNil p <;> simp [scrambleDescend, scrambleIfObj]
    rw [hcollapse] at h
    exact ⟨scrambleObjFields attrs o, h,
      lookupField_scramble_masked attrs k o v hm hf⟩
  · intro items hreach
    have h := lookupPath_scramble attrs p (JValue.jobj root) (JValue.jarr items) hp hreach
    cases hE : endsKeyOrNil p with
    | true =>
      rw [hE] at h
      simp only [if_true, scrambleDescend] at h
      rw [scrambleArrayItems_eq_map] at h
      refine ⟨items.map (scrambleIfObj attrs), h, by simp, ?_⟩
      intro i it hget hno
      rw [List.get?_map, hget]
      cases it with
      | jobj f => exact absurd rfl (hno f)
      | jnull => rfl
      | jbool b => rfl
      | jnum n => rfl
      | jstr s => rfl
      | jarr l => rfl
    | false =>
      rw [hE] at h
      simp only [Bool.false_eq_true, if_false, scrambleIfObj] at h
      exact ⟨items, h, rfl, fun i it hget _ => hget⟩
  · intro s h
    have h2 : 2 < s.length := h
    simp [scrambleValue, maskString, h, h2]
  · intro s h
    have heq : s.toList.length = s.length := rfl
    have hnot : ¬(2 < s.length) := by omega
    simp [scrambleValue, maskString, hnot]
  · intro n; rfl
  · intro b; rfl
  · intro items; rfl
  · intro fields; rfl

/-- Closed witness for claim C5: in a payload where the masked key cpf
lives inside an object inside an array under the unmasked key a, the
scrambled payload holds the star-masked cpf value at that depth, and the
primitive array under the unmasked key keep is untouched. -/
theorem c5_mask_no_original_value_witness :
    (∃ o2, lookupPath (JValue.jobj (findAndScrambleAttribute maskAttrsSample payloadSample))
          [PathStep.key "a", PathStep.idx 0] = some (JValue.jobj o2) ∧
        lookupField o2 "cpf" = some (scrambleValue (JValue.jstr "12345678901"))) ∧
    (∃ items2, lookupPath (JValue.jobj (findAndScrambleAttribute maskAttrsSample payloadSample))
          [PathStep.key "a", PathStep.idx 0, PathStep.key "keep"] =
            some (JValue.jarr items2) ∧
        items2.length = ([JValue.jnum 1, JValue.jnum 2] : List JValue).length ∧
        ∀ (i : Nat) (it : JValue),
          ([JValue.jnum 1, JValue.jnum 2] : List JValue).get? i = some it →
          (∀ f, it ≠ JValue.jobj f) → items2.get? i = some it) :=
  ⟨(c5_mask_no_original_value maskAttrsSample payloadSample
      [PathStep.key "a", PathStep.idx 0] (by decide)).1
      innerObjSample "cpf" (JValue.jstr "12345678901") rfl (by decide) rfl,
   (c5_mask_no_original_value maskAttrsSample payloadSample
      [PathStep.key "a", PathStep.idx 0, PathStep.key "keep"] (by decide)).2.1
      [JValue.jnum 1, JValue.jnum 2] rfl⟩

end MQD
